import Mathlib

/-! Shallow embedding of the builder.

Shallow embedding of `tools/build_packs_manifest.py`: a content-addressable
manifest builder that discovers `.json` asset files in a directory, hashes
each one with SHA-256, and writes a canonical `packs.json` manifest.

Strings are modelled as lists of Unicode codepoints, file contents as lists
of bytes (naturals below 256).  Fallible operations return `Except`.
-/

namespace PacksManifest

/-- A Python string, modelled as its list of Unicode codepoints. -/
abbrev Str := List Nat

/-- Convert a Lean string literal to its codepoint list (ASCII literals only
are used below). -/
def lit (s : String) : Str := s.toList.map Char.toNat

/-- A directory entry as seen by `Path.iterdir` / `Path.is_file` /
`Path.open("rb")`.  `isFile` covers regular files (after following
symlinks), `content = none` models a file whose read fails at hash time
(permissions, I/O error, removed between discovery and hashing), and
`mtime` stands for the metadata the builder never consults. -/
structure Entry where
  name : Str
  isFile : Bool
  mtime : Nat
  content : Option (List Nat)
  deriving DecidableEq, Repr

/-! Section: SHA-256 (FIPS 180-4), as computed by `hashlib.sha256`

Words are naturals reduced modulo `2^32`; messages are byte lists. -/

/-- Truncate to a 32-bit word. -/
def w32 (n : Nat) : Nat := n % 4294967296

/-- Right-rotation of a 32-bit word by `r` places. -/
def rotr32 (r x : Nat) : Nat := x / 2 ^ r + x % 2 ^ r * 2 ^ (32 - r)

/-- SHA-256 choice function. -/
def shaCh (x y z : Nat) : Nat := (x &&& y) ^^^ ((x ^^^ 4294967295) &&& z)

/-- SHA-256 majority function. -/
def shaMaj (x y z : Nat) : Nat := (x &&& y) ^^^ (x &&& z) ^^^ (y &&& z)

/-- SHA-256 Σ₀. -/
def bigS0 (x : Nat) : Nat := rotr32 2 x ^^^ rotr32 13 x ^^^ rotr32 22 x

/-- SHA-256 Σ₁. -/
def bigS1 (x : Nat) : Nat := rotr32 6 x ^^^ rotr32 11 x ^^^ rotr32 25 x

/-- SHA-256 σ₀. -/
def smallS0 (x : Nat) : Nat := rotr32 7 x ^^^ rotr32 18 x ^^^ (x / 2 ^ 3)

/-- SHA-256 σ₁. -/
def smallS1 (x : Nat) : Nat := rotr32 17 x ^^^ rotr32 19 x ^^^ (x / 2 ^ 10)

/-- The 64 SHA-256 round constants. -/
def shaK : List Nat :=
  [1116352408, 1899447441, 3049323471, 3921009573, 961987163, 1508970993,
   2453635748, 2870763221, 3624381080, 310598401, 607225278, 1426881987,
   1925078388, 2162078206, 2614888103, 3248222580, 3835390401, 4022224774,
   264347078, 604807628, 770255983, 1249150122, 1555081692, 1996064986,
   2554220882, 2821834349, 2952996808, 3210313671, 3336571891, 3584528711,
   113926993, 338241895, 666307205, 773529912, 1294757372, 1396182291,
   1695183700, 1986661051, 2177026350, 2456956037, 2730485921, 2820302411,
   3259730800, 3345764771, 3516065817, 3600352804, 4094571909, 275423344,
   430227734, 506948616, 659060556, 883997877, 958139571, 1322822218,
   1537002063, 1747873779, 1955562222, 2024104815, 2227730452, 2361852424,
   2428436474, 2756734187, 3204031479, 3329325298]

/-- The SHA-256 initial hash value. -/
def shaH0 : List Nat :=
  [1779033703, 3144134277, 1013904242, 2773480762, 1359893119, 2600822924,
   528734635, 1541459225]

/-- FIPS 180-4 padding: append `0x80`, zeros up to 56 mod 64, then the
message bit length as eight big-endian bytes (mod `2^64`). -/
def padMessage (msg : List Nat) : List Nat :=
  let bitLen := 8 * msg.length % 18446744073709551616
  msg ++ 128 :: List.replicate ((119 - msg.length % 64) % 64) 0 ++
    [bitLen / 72057594037927936 % 256, bitLen / 281474976710656 % 256,
     bitLen / 1099511627776 % 256, bitLen / 4294967296 % 256,
     bitLen / 16777216 % 256, bitLen / 65536 % 256,
     bitLen / 256 % 256, bitLen % 256]

/-- Group bytes into big-endian 32-bit words (input length divisible by 4). -/
def beWords : List Nat → List Nat
  | a :: b :: c :: d :: rest => (((a * 256 + b) * 256 + c) * 256 + d) :: beWords rest
  | _ => []

/-- Split a list into consecutive chunks of `n` elements (`n ≥ 1`; the last
chunk may be shorter).  Fuel-structured so it evaluates in the kernel. -/
def chunksOfAux (n : Nat) : Nat → List α → List (List α)
  | 0, _ => []
  | _, [] => []
  | fuel + 1, a :: as => (a :: as).take n :: chunksOfAux n fuel ((a :: as).drop n)

/-- Split a list into consecutive chunks of `n` elements (`n ≥ 1`). -/
def chunksOf (n : Nat) (l : List α) : List (List α) := chunksOfAux n l.length l

/-- The working registers of the SHA-256 compression function. -/
structure Regs where
  a : Nat
  b : Nat
  c : Nat
  d : Nat
  e : Nat
  f : Nat
  g : Nat
  h : Nat
  deriving DecidableEq, Repr

/-- One SHA-256 round with round constant `k` and schedule word `w`. -/
def shaRound (r : Regs) (k w : Nat) : Regs :=
  let t1 := w32 (r.h + bigS1 r.e + shaCh r.e r.f r.g + k + w)
  let t2 := w32 (bigS0 r.a + shaMaj r.a r.b r.c)
  ⟨w32 (t1 + t2), r.a, r.b, r.c, w32 (r.d + t1), r.e, r.f, r.g⟩

/-- Extend the 16-word message block by `n` further schedule words. -/
def extendW : Nat → List Nat → List Nat
  | 0, ws => ws
  | n + 1, ws =>
      extendW n (ws ++ [w32 (smallS1 (ws.getD (ws.length - 2) 0) +
        ws.getD (ws.length - 7) 0 + smallS0 (ws.getD (ws.length - 15) 0) +
        ws.getD (ws.length - 16) 0)])

/-- The SHA-256 compression function on one 16-word block. -/
def compress (H : List Nat) (block : List Nat) : List Nat :=
  let ws := extendW 48 block
  let r0 : Regs := ⟨H.getD 0 0, H.getD 1 0, H.getD 2 0, H.getD 3 0,
    H.getD 4 0, H.getD 5 0, H.getD 6 0, H.getD 7 0⟩
  let r := (shaK.zip ws).foldl (fun acc kw => shaRound acc kw.1 kw.2) r0
  [w32 (H.getD 0 0 + r.a), w32 (H.getD 1 0 + r.b), w32 (H.getD 2 0 + r.c),
   w32 (H.getD 3 0 + r.d), w32 (H.getD 4 0 + r.e), w32 (H.getD 5 0 + r.f),
   w32 (H.getD 6 0 + r.g), w32 (H.getD 7 0 + r.h)]

/-- A 32-bit word as four big-endian bytes. -/
def wordBE (w : Nat) : List Nat :=
  [w / 16777216 % 256, w / 65536 % 256, w / 256 % 256, w % 256]

/-- The SHA-256 digest (32 bytes) of a byte list. -/
def sha256 (msg : List Nat) : List Nat :=
  ((chunksOf 16 (beWords (padMessage msg))).foldl compress shaH0).flatMap wordBE

/-- A nibble as a lowercase hexadecimal character codepoint. -/
def hexDigit (n : Nat) : Nat := if n < 10 then 48 + n else 87 + n

/-- Bytes rendered as lowercase hexadecimal text, as `hexdigest()` does. -/
def bytesToHex (bs : List Nat) : Str :=
  bs.flatMap (fun b => [hexDigit (b / 16), hexDigit (b % 16)])

/-! Section: The hasher `sha256_hex`

The source opens the file and feeds `hashlib` successive `read(8192)` chunks.
Per `hashlib`'s documented semantics `update` is concatenation
(`m.update(a); m.update(b)` ≡ `m.update(a+b)`), so the accumulated hasher
state is the byte list fed so far and `hexdigest` is `sha256` of it. -/

/-- The successive chunks produced by the `f.read(8192)` loop. -/
def readChunks (content : List Nat) : List (List Nat) := chunksOf 8192 content

/-- Feeding one chunk to the incremental hasher. -/
def hashlibUpdate (state chunk : List Nat) : List Nat := state ++ chunk

/-- Model of `sha256_hex` on the bytes read from an open file: stream the content in
8192-byte chunks through the incremental hasher and render the digest. -/
def sha256_hex (content : List Nat) : Str :=
  bytesToHex (sha256 ((readChunks content).foldl hashlibUpdate []))

/-! Section: Python string primitives used by the discoverer -/

/-- Python `str.lower` on one codepoint.  Only the ASCII range is mapped; this is
extensionally adequate for the single use `suffix.lower() == ".json"`,
since no non-ASCII codepoint lowercases to any of `.`, `j`, `s`, `o`, `n`
under full Unicode case mapping. -/
def pyLowerChar (c : Nat) : Nat := if 65 ≤ c ∧ c ≤ 90 then c + 32 else c

/-- Python `str.lower` over a string. -/
def pyLower (s : Str) : Str := s.map pyLowerChar

/-- Index of the last occurrence of codepoint `c`, as `str.rfind`. -/
def rfind (c : Nat) : Str → Option Nat
  | [] => none
  | a :: as =>
    match rfind c as with
    | some i => some (i + 1)
    | none => if a = c then some 0 else none

/-- Python `PurePath.suffix`: the substring from the last dot, unless that dot is
the leading or the final character of the name. -/
def pySuffix (s : Str) : Str :=
  match rfind 46 s with
  | some i => if 0 < i ∧ i + 1 < s.length then s.drop i else []
  | none => []

/-- The codepoints of `".json"`. -/
def dotJson : Str := lit (".json")

/-- Lexicographic codepoint comparison, Python's `<=` on strings (and on
`Path` values sharing a parent directory). -/
def strLe : Str → Str → Bool
  | [], _ => true
  | _ :: _, [] => false
  | a :: as, b :: bs => if a < b then true else if b < a then false else strLe as bs

/-- Path ordering used by `sorted(assets_dir.iterdir())`: all listed paths
share the directory prefix, so it is codepoint order on the names. -/
def nameLe (x y : Entry) : Bool := strLe x.name y.name

/-- Insert into a sorted list, keeping earlier elements first on ties. -/
def insertBy (le : α → α → Bool) (a : α) : List α → List α
  | [] => [a]
  | b :: bs => if le a b then a :: b :: bs else b :: insertBy le a bs

/-- Stable comparison sort modelling Python's `sorted` (any stable sort
over the same total preorder produces the same list). -/
def sortBy (le : α → α → Bool) : List α → List α
  | [] => []
  | a :: as => insertBy le a (sortBy le as)

/-! Section: The discoverer `iter_json_files` -/

/-- The three `continue` tests of the discovery loop: keep regular files
with a case-insensitive `.json` suffix whose name is not excluded. -/
def jsonFilter (excludes : List Str) (e : Entry) : Bool :=
  e.isFile && pyLower (pySuffix e.name) == dotJson && !(excludes.contains e.name)

/-- The discoverer `iter_json_files`: the sorted directory listing with non-files, wrong
suffixes and excluded names skipped, in yield order. -/
def iter_json_files (entries : List Entry) (excludes : List Str) : List Entry :=
  (sortBy nameLe entries).filter (jsonFilter excludes)

/-! Section: The builder `build_manifest` -/

/-- One manifest record: a `fileName` and a `sha256` digest. -/
structure AssetRecord where
  fileName : Str
  sha256 : Str
  deriving DecidableEq, Repr

/-- The failure modes of a build, per the design taxonomy.  In the source
they surface as `SystemExit` (bad directory, empty set) or as a propagated
`OSError` (unreadable file); all abort the process with nonzero status. -/
inductive BuildError where
  | DirectoryNotFound
  | UnreadableFile (name : Str)
  | EmptyAssetSet
  deriving DecidableEq, Repr

/-- The append loop of `build_manifest`: hash each discovered file in
order, aborting at the first file whose read fails. -/
def buildLoop : List Entry → Except BuildError (List AssetRecord)
  | [] => .ok []
  | e :: es =>
    match e.content with
    | none => .error (.UnreadableFile e.name)
    | some bs =>
      match buildLoop es with
      | .error err => .error err
      | .ok rs => .ok (⟨e.name, sha256_hex bs⟩ :: rs)

/-- The builder `build_manifest`: records for the discovered files, in discovery order. -/
def build_manifest (entries : List Entry) (excludes : List Str) :
    Except BuildError (List AssetRecord) :=
  buildLoop (iter_json_files entries excludes)

/-! Section: The writer: `json.dump(manifest, f, indent=2, ensure_ascii=True)`
followed by `f.write("\n")` -/

/-- Four lowercase hexadecimal characters, as in a `\uXXXX` escape. -/
def hex4 (n : Nat) : Str :=
  [hexDigit (n / 4096 % 16), hexDigit (n / 256 % 16),
   hexDigit (n / 16 % 16), hexDigit (n % 16)]

/-- Python `ensure_ascii` escaping of one character: short escapes for the usual
controls, `\uXXXX` for other controls and all non-ASCII (a surrogate pair
beyond the BMP), printable ASCII verbatim. -/
def escapeChar (c : Nat) : Str :=
  if c = 34 then [92, 34]
  else if c = 92 then [92, 92]
  else if c = 8 then [92, 98]
  else if c = 9 then [92, 116]
  else if c = 10 then [92, 110]
  else if c = 12 then [92, 102]
  else if c = 13 then [92, 114]
  else if 32 ≤ c ∧ c ≤ 126 then [c]
  else if c < 65536 then 92 :: 117 :: hex4 c
  else 92 :: 117 :: hex4 (55296 + (c - 65536) / 1024) ++
    92 :: 117 :: hex4 (56320 + (c - 65536) % 1024)

/-- A JSON string literal: quotes around the escaped characters. -/
def quoteStr (s : Str) : Str := 34 :: s.flatMap escapeChar ++ [34]

/-- One record as serialized inside the `packs` array at indent level 2,
`fileName` key first, then `sha256`. -/
def renderRecord (r : AssetRecord) : Str :=
  lit ("    \x7b\n      \"fileName\": ") ++ quoteStr r.fileName ++
    lit (",\n      \"sha256\": ") ++ quoteStr r.sha256 ++ lit ("\n    \x7d")

/-- Concatenate serialized items with `json.dump`'s item separator between
consecutive ones. -/
def joinSep (sep : Str) : List Str → Str
  | [] => []
  | [s] => s
  | s :: t :: rest => s ++ sep ++ joinSep sep (t :: rest)

/-- The serialized manifest document, trailing newline included. -/
def renderManifest (packs : List AssetRecord) : Str :=
  if packs.isEmpty then lit ("\x7b\n  \"packs\": []\n\x7d\n")
  else
    lit ("\x7b\n  \"packs\": [\n") ++
      joinSep (lit (",\n")) (packs.map renderRecord) ++
      lit ("\n  ]\n\x7d\n")

/-! Section: The driver `main` -/

/-- The codepoints of `"packs.json"`. -/
def packsJsonStr : Str := lit ("packs.json")

/-- Line 64 of the source unions the literal set holding `packs.json`
with `set(args.exclude)`: the literal default name is joined with the
caller-supplied exclusions; the resolved output path is not consulted. -/
def defaultExcludes (userExcludes : List Str) : List Str :=
  packsJsonStr :: userExcludes

/-- One invocation of the tool: the resolved assets directory (its listing
and whether it exists as a directory), the file name of the resolved
`--output` path, and the repeatable `--exclude` values. -/
structure Config where
  dirEntries : List Entry
  dirExists : Bool
  outputName : Str
  userExcludes : List Str
  deriving DecidableEq, Repr

/-- The driver `main`: check the directory, build the records, fail on an empty set,
otherwise serialize.  `.ok doc` is the single write of `doc` to the output
path (created or overwritten there and then); every `.error` aborts with a
nonzero exit status before any write happens. -/
def main (cfg : Config) : Except BuildError Str :=
  let excludes := defaultExcludes cfg.userExcludes
  if cfg.dirExists = false then .error .DirectoryNotFound
  else
    match build_manifest cfg.dirEntries excludes with
    | .error err => .error err
    | .ok packs =>
      if packs.isEmpty then .error .EmptyAssetSet
      else .ok (renderManifest packs)

/-- Process exit status: 0 only for a successful write. -/
def exitCode (r : Except BuildError Str) : Nat :=
  match r with
  | .ok _ => 0
  | .error _ => 1

/-- The codepoints of `"PACKS.JSON"`. -/
def upperPacksJson : Str := lit ("PACKS.JSON")

/-! Section: Concrete runs -/

set_option maxRecDepth 40000

/-- A readable empty `a.json`. -/
def entryAJson : Entry := ⟨lit ("a.json"), true, 0, some []⟩

/-- A readable `b.json` holding the seven bytes of a small JSON object. -/
def entryBJson : Entry := ⟨lit ("b.json"), true, 7, some (lit ("\x7b\"x\":1\x7d"))⟩

/-- A readable `out.json`, used as a custom output name. -/
def entryOutJson : Entry := ⟨lit ("out.json"), true, 0, some []⟩

/-- A file with a non-matching extension. -/
def entryNotes : Entry := ⟨lit ("notes.txt"), true, 0, some []⟩

/-- A pre-existing `packs.json` from an earlier run. -/
def entryPacks : Entry := ⟨lit ("packs.json"), true, 3, some []⟩

/-- A discovered file whose read fails at hash time. -/
def entryUnreadable : Entry := ⟨lit ("u.json"), true, 0, none⟩

/-- A regular file named `PACKS.JSON`. -/
def entryUpper : Entry := ⟨upperPacksJson, true, 0, some []⟩

/-- SHA-256 of the empty byte sequence, in lowercase hexadecimal. -/
def emptySha : Str :=
  lit ("e3b0c44298fc1c149afbf4c8996fb92427ae41e4649b934ca495991b7852b855")

/-- SHA-256 of the bytes of `entryBJson`, in lowercase hexadecimal. -/
def xJsonSha : Str :=
  lit ("5041bf1f713df204784353e82f6a4a535931cb64f1f4b4a5aeaffcb720918b22")

/-- An invocation whose `--output` resolves to `out.json` in the assets
directory, with no caller-supplied exclusions. -/
def cfgCustomOut : Config := ⟨[entryAJson, entryOutJson], true, lit ("out.json"), []⟩

/-- An invocation over `a.json` plus an unreadable `u.json`. -/
def cfgUnreadable : Config :=
  ⟨[entryAJson, entryUnreadable], true, lit ("packs.json"), []⟩

/-- An invocation over a directory holding only `notes.txt`. -/
def cfgNotes : Config := ⟨[entryNotes], true, lit ("packs.json"), []⟩

/-- An invocation with a stale `packs.json` present and an output path
resolving elsewhere. -/
def cfgPacksPresent : Config :=
  ⟨[entryPacks, entryAJson], true, lit ("elsewhere.json"), []⟩

deriving instance DecidableEq for Except

/-! Section: SHA-256 test vectors -/

/-- Test vector: SHA-256 of the empty message. -/
theorem sha256_vector_empty :
    bytesToHex (sha256 []) =
      lit ("e3b0c44298fc1c149afbf4c8996fb92427ae41e4649b934ca495991b7852b855") := by
  decide

/-- Test vector: SHA-256 of the three bytes `"abc"`. -/
theorem sha256_vector_abc :
    bytesToHex (sha256 [97, 98, 99]) =
      lit ("ba7816bf8f01cfea414140de5dae2223b00361a396177a9cb410ff61f20015ad") := by
  decide


/-! Section: Chunked streaming agrees with one-shot hashing -/

/-- Chunks reassemble to the original list when the chunk size is positive. -/
theorem chunksOfAux_flatten {α : Type} {n : Nat} (hn : 1 ≤ n) :
    ∀ fuel (l : List α), l.length ≤ fuel → (chunksOfAux n fuel l).flatten = l := by
  intro fuel
  induction fuel with
  | zero =>
    intro l hl
    have : l = [] := List.eq_nil_of_length_eq_zero (Nat.le_zero.mp hl)
    subst this; rfl
  | succ fuel ih =>
    intro l hl
    cases l with
    | nil => rfl
    | cons a as =>
      have hdrop : ((a :: as).drop n).length ≤ fuel := by
        rw [List.length_drop]
        simp only [List.length_cons] at hl ⊢
        omega
      calc (chunksOfAux n (fuel + 1) (a :: as)).flatten
          = (a :: as).take n ++ (chunksOfAux n fuel ((a :: as).drop n)).flatten := by
            rw [chunksOfAux, List.flatten_cons]
        _ = (a :: as).take n ++ (a :: as).drop n := by rw [ih _ hdrop]
        _ = a :: as := List.take_append_drop n (a :: as)

/-- Function `chunksOf` loses nothing. -/
theorem chunksOf_flatten {α : Type} {n : Nat} (hn : 1 ≤ n) (l : List α) :
    (chunksOf n l).flatten = l :=
  chunksOfAux_flatten hn l.length l (Nat.le_refl _)

/-- Every chunk respects the bound `n`. -/
theorem chunksOfAux_length_le {α : Type} {n : Nat} :
    ∀ fuel (l : List α) c, c ∈ chunksOfAux n fuel l → c.length ≤ n := by
  intro fuel
  induction fuel with
  | zero => intro l c hc; simp [chunksOfAux] at hc
  | succ fuel ih =>
    intro l c hc
    cases l with
    | nil => simp [chunksOfAux] at hc
    | cons a as =>
      rw [chunksOfAux, List.mem_cons] at hc
      rcases hc with h | h
      · subst h
        rw [List.length_take]
        exact Nat.min_le_left _ _
      · exact ih _ _ h

/-- Folding the incremental hasher over chunks accumulates their flattening. -/
theorem foldl_hashlibUpdate (L : List (List Nat)) :
    ∀ acc, L.foldl hashlibUpdate acc = acc ++ L.flatten := by
  induction L with
  | nil => intro acc; simp
  | cons c L ih =>
    intro acc
    rw [List.foldl_cons, ih, List.flatten_cons, hashlibUpdate, List.append_assoc]

/-- The chunked read loop hashes exactly the file's complete byte content:
`sha256_hex` equals the one-shot digest in lowercase hexadecimal. -/
theorem sha256_hex_eq_oneShot (bs : List Nat) :
    sha256_hex bs = bytesToHex (sha256 bs) := by
  rw [sha256_hex, foldl_hashlibUpdate, List.nil_append, readChunks,
    chunksOf_flatten (by omega)]

/-! Section: Shape of the digest text -/

/-- The compression function returns eight words. -/
theorem compress_length (H block : List Nat) : (compress H block).length = 8 := rfl

/-- Folding compressions preserves the eight-word shape. -/
theorem foldl_compress_length (blocks : List (List Nat)) :
    ∀ H : List Nat, H.length = 8 → (blocks.foldl compress H).length = 8 := by
  induction blocks with
  | nil => intro H hh; simpa using hh
  | cons b bs ih => intro H _; exact ih _ (compress_length H b)

/-- Serializing words to big-endian bytes quadruples the length. -/
theorem flatMap_wordBE_length (ws : List Nat) :
    (ws.flatMap wordBE).length = 4 * ws.length := by
  induction ws with
  | nil => rfl
  | cons w ws ih => simp [wordBE, ih, List.length_cons]; omega

/-- A SHA-256 digest is 32 bytes. -/
theorem sha256_length (msg : List Nat) : (sha256 msg).length = 32 := by
  rw [sha256, flatMap_wordBE_length, foldl_compress_length _ shaH0 rfl]

/-- Every digest byte is below 256. -/
theorem sha256_mem_lt (msg : List Nat) : ∀ b ∈ sha256 msg, b < 256 := by
  intro b hb
  rw [sha256, List.mem_flatMap] at hb
  obtain ⟨w, -, hw⟩ := hb
  have h256 : 0 < 256 := by omega
  simp only [wordBE, List.mem_cons, List.not_mem_nil, or_false] at hw
  rcases hw with h | h | h | h <;> subst h <;> exact Nat.mod_lt _ h256

/-- Rendering bytes doubles the length. -/
theorem bytesToHex_length (bs : List Nat) : (bytesToHex bs).length = 2 * bs.length := by
  induction bs with
  | nil => rfl
  | cons b bs ih => simp [bytesToHex] at ih ⊢; omega

/-- Rendered bytes use only lowercase hexadecimal characters. -/
theorem bytesToHex_chars (bs : List Nat) (hbs : ∀ b ∈ bs, b < 256) :
    ∀ c ∈ bytesToHex bs, 48 ≤ c ∧ c ≤ 57 ∨ 97 ≤ c ∧ c ≤ 102 := by
  intro c hc
  rw [bytesToHex, List.mem_flatMap] at hc
  obtain ⟨b, hb, hcb⟩ := hc
  have hb256 : b < 256 := hbs b hb
  have hlo : b % 16 < 16 := Nat.mod_lt _ (by omega)
  have hhi : b / 16 < 16 := by omega
  simp only [List.mem_cons, List.not_mem_nil, or_false] at hcb
  rcases hcb with h | h <;> subst h <;> rw [hexDigit] <;> split <;> omega

/-- The hexadecimal digest text has 64 characters. -/
theorem sha256_hex_length (bs : List Nat) : (sha256_hex bs).length = 64 := by
  rw [sha256_hex_eq_oneShot, bytesToHex_length, sha256_length]

/-- The hexadecimal digest text is lowercase hexadecimal throughout. -/
theorem sha256_hex_chars (bs : List Nat) :
    ∀ c ∈ sha256_hex bs, 48 ≤ c ∧ c ≤ 57 ∨ 97 ≤ c ∧ c ≤ 102 := by
  rw [sha256_hex_eq_oneShot]
  exact bytesToHex_chars _ (sha256_mem_lt bs)

/-! Section: The lexicographic codepoint order -/

/-- Relation `strLe` is total. -/
theorem strLe_total : ∀ x y : Str, strLe x y = true ∨ strLe y x = true := by
  intro x
  induction x with
  | nil => intro y; left; rfl
  | cons a as ih =>
    intro y
    cases y with
    | nil => right; rfl
    | cons b bs =>
      simp only [strLe]
      rcases Nat.lt_trichotomy a b with h | h | h
      · left; simp [h]
      · subst h
        rcases ih bs with hle | hle <;> [left; right] <;>
          simp [Nat.lt_irrefl, hle]
      · right; simp [h]

/-- Relation `strLe` is transitive. -/
theorem strLe_trans : ∀ x y z : Str,
    strLe x y = true → strLe y z = true → strLe x z = true := by
  intro x
  induction x with
  | nil => intro y z _ _; rfl
  | cons a as ih =>
    intro y z h1 h2
    cases y with
    | nil => simp [strLe] at h1
    | cons b bs =>
      cases z with
      | nil => simp [strLe] at h2
      | cons c cs =>
        simp only [strLe] at h1 h2 ⊢
        split_ifs at h1 h2 ⊢ with hab hba hbc hcb hac hca <;>
          first
          | rfl
          | omega
          | exact ih bs cs h1 h2

/-- Relation `strLe` is antisymmetric. -/
theorem strLe_antisymm : ∀ x y : Str,
    strLe x y = true → strLe y x = true → x = y := by
  intro x
  induction x with
  | nil =>
    intro y _ h2
    cases y with
    | nil => rfl
    | cons b bs => simp [strLe] at h2
  | cons a as ih =>
    intro y h1 h2
    cases y with
    | nil => simp [strLe] at h1
    | cons b bs =>
      simp only [strLe] at h1 h2
      split_ifs at h1 h2 with hab hba <;> first
        | omega
        | exact absurd rfl (by simp_all)
        | exact congrArg₂ (· :: ·) (by omega) (ih bs h1 h2)

/-! Section: The stable sort -/

/-- Inserting permutes to consing. -/
theorem insertBy_perm {α : Type} (le : α → α → Bool) (a : α) :
    ∀ l : List α, (insertBy le a l).Perm (a :: l) := by
  intro l
  induction l with
  | nil => exact List.Perm.refl _
  | cons b bs ih =>
    rw [insertBy]
    split
    · exact List.Perm.refl _
    · exact (ih.cons b).trans (List.Perm.swap a b bs)

/-- Sorting permutes the input. -/
theorem sortBy_perm {α : Type} (le : α → α → Bool) :
    ∀ l : List α, (sortBy le l).Perm l := by
  intro l
  induction l with
  | nil => exact List.Perm.refl _
  | cons a as ih => exact (insertBy_perm le a (sortBy le as)).trans (ih.cons a)

/-- Inserting into a sorted list keeps it sorted, for a total transitive
comparison. -/
theorem insertBy_pairwise {α : Type} {le : α → α → Bool}
    (htot : ∀ x y, le x y = true ∨ le y x = true)
    (htrans : ∀ x y z, le x y = true → le y z = true → le x z = true) (a : α) :
    ∀ l : List α, l.Pairwise (fun x y => le x y = true) →
      (insertBy le a l).Pairwise (fun x y => le x y = true) := by
  intro l
  induction l with
  | nil => intro _; simp [insertBy]
  | cons b bs ih =>
    intro hp
    rw [List.pairwise_cons] at hp
    rw [insertBy]
    by_cases hab : le a b = true
    · rw [if_pos hab, List.pairwise_cons]
      refine ⟨?_, List.pairwise_cons.mpr hp⟩
      intro x hx
      rw [List.mem_cons] at hx
      rcases hx with h | h
      · subst h; exact hab
      · exact htrans a b x hab (hp.1 x h)
    · have hba : le b a = true := (htot a b).resolve_left hab
      rw [if_neg hab, List.pairwise_cons]
      refine ⟨?_, ih hp.2⟩
      intro x hx
      have := (insertBy_perm le a bs).mem_iff.mp hx
      rw [List.mem_cons] at this
      rcases this with h | h
      · subst h; exact hba
      · exact hp.1 x h

/-- The sort is sorted, for a total transitive comparison. -/
theorem sortBy_pairwise {α : Type} {le : α → α → Bool}
    (htot : ∀ x y, le x y = true ∨ le y x = true)
    (htrans : ∀ x y z, le x y = true → le y z = true → le x z = true) :
    ∀ l : List α, (sortBy le l).Pairwise (fun x y => le x y = true) := by
  intro l
  induction l with
  | nil => simp [sortBy]
  | cons a as ih => exact insertBy_pairwise htot htrans a _ ih

/-- Two sorted lists that are permutations of each other coincide when the
comparison is antisymmetric on their members. -/
theorem sortedPermUnique {α : Type} {le : α → α → Bool} :
    ∀ {l1 l2 : List α}, l1.Perm l2 →
      l1.Pairwise (fun x y => le x y = true) →
      l2.Pairwise (fun x y => le x y = true) →
      (∀ x ∈ l1, ∀ y ∈ l1, le x y = true → le y x = true → x = y) →
      l1 = l2 := by
  intro l1
  induction l1 with
  | nil => intro l2 hp _ _ _; exact hp.nil_eq
  | cons a t1 ih =>
    intro l2 hp hs1 hs2 hanti
    cases l2 with
    | nil => exact absurd hp.symm.nil_eq (by simp)
    | cons b t2 =>
      have hab : a = b := by
        by_contra hne
        have haIn : a ∈ t2 := by
          have := hp.mem_iff.mp (List.mem_cons_self a t1)
          rw [List.mem_cons] at this
          exact this.resolve_left hne
        have hbIn : b ∈ t1 := by
          have := hp.mem_iff.mpr (List.mem_cons_self b t2)
          rw [List.mem_cons] at this
          exact this.resolve_left (fun h => hne h.symm)
        have h1 : le a b = true := (List.pairwise_cons.mp hs1).1 b hbIn
        have h2 : le b a = true := (List.pairwise_cons.mp hs2).1 a haIn
        exact hne (hanti a (List.mem_cons_self a t1) b
          (List.mem_cons_of_mem a hbIn) h1 h2)
      subst hab
      have hp' := hp.cons_inv
      have ht : t1 = t2 := by
        refine ih hp' (List.pairwise_cons.mp hs1).2 (List.pairwise_cons.mp hs2).2 ?_
        intro x hx y hy
        exact hanti x (List.mem_cons_of_mem a hx) y (List.mem_cons_of_mem a hy)
      rw [ht]

/-! Section: Discovery lemmas -/

/-- Relation `nameLe` is total. -/
theorem nameLe_total : ∀ x y : Entry, nameLe x y = true ∨ nameLe y x = true :=
  fun x y => strLe_total x.name y.name

/-- Relation `nameLe` is transitive. -/
theorem nameLe_trans : ∀ x y z : Entry,
    nameLe x y = true → nameLe y z = true → nameLe x z = true :=
  fun x y z => strLe_trans x.name y.name z.name

/-- Membership in the discovered sequence: exactly the entries of the
listing that pass the three filters. -/
theorem mem_iter_json_files {entries : List Entry} {excludes : List Str} {e : Entry} :
    e ∈ iter_json_files entries excludes ↔
      e ∈ entries ∧ jsonFilter excludes e = true := by
  rw [iter_json_files, List.mem_filter, (sortBy_perm nameLe entries).mem_iff]

/-- Characterization of discovery membership by the three filters. -/
theorem mem_iter_char (entries : List Entry) (excludes : List Str) (e : Entry) :
    e ∈ iter_json_files entries excludes ↔
      e ∈ entries ∧ e.isFile = true ∧ pyLower (pySuffix e.name) = dotJson ∧
        e.name ∉ excludes := by
  rw [mem_iter_json_files, jsonFilter]
  simp [and_assoc]

/-- The discovered names are sorted in codepoint order. -/
theorem iter_json_files_sorted (entries : List Entry) (excludes : List Str) :
    ((iter_json_files entries excludes).map Entry.name).Pairwise
      (fun x y => strLe x y = true) := by
  have hs : (sortBy nameLe entries).Pairwise (fun x y => nameLe x y = true) :=
    sortBy_pairwise nameLe_total nameLe_trans entries
  have hf : (iter_json_files entries excludes).Pairwise
      (fun x y => nameLe x y = true) :=
    List.Pairwise.sublist (List.filter_sublist _) hs
  exact hf.map Entry.name (fun a b h => h)

/-- Discovery depends only on the set of listed entries, not on the
filesystem's iteration order, provided names are unique (as they are in a
real directory). -/
theorem iter_json_files_perm_eq {l1 l2 : List Entry} (hp : l1.Perm l2)
    (hnd : (l1.map Entry.name).Nodup) (excludes : List Str) :
    iter_json_files l1 excludes = iter_json_files l2 excludes := by
  have hs : sortBy nameLe l1 = sortBy nameLe l2 := by
    refine sortedPermUnique
      ((sortBy_perm nameLe l1).trans (hp.trans (sortBy_perm nameLe l2).symm))
      (sortBy_pairwise nameLe_total nameLe_trans l1)
      (sortBy_pairwise nameLe_total nameLe_trans l2) ?_
    intro x hx y hy h1 h2
    have hxl : x ∈ l1 := (sortBy_perm nameLe l1).mem_iff.mp hx
    have hyl : y ∈ l1 := (sortBy_perm nameLe l1).mem_iff.mp hy
    exact List.inj_on_of_nodup_map hnd hxl hyl
      (strLe_antisymm x.name y.name h1 h2)
  rw [iter_json_files, iter_json_files, hs]

/-- Unique listing names stay unique through discovery. -/
theorem iter_json_files_names_nodup {entries : List Entry}
    (hnd : (entries.map Entry.name).Nodup) (excludes : List Str) :
    ((iter_json_files entries excludes).map Entry.name).Nodup := by
  have hperm : ((sortBy nameLe entries).map Entry.name).Perm
      (entries.map Entry.name) := (sortBy_perm nameLe entries).map Entry.name
  have hnds : ((sortBy nameLe entries).map Entry.name).Nodup :=
    hnd.perm hperm.symm
  exact List.Nodup.sublist ((List.filter_sublist _).map Entry.name) hnds

/-! Section: Builder-loop lemmas -/

/-- A successful loop records the file names in discovery order. -/
theorem buildLoop_ok_names : ∀ {es : List Entry} {rs : List AssetRecord},
    buildLoop es = .ok rs → rs.map AssetRecord.fileName = es.map Entry.name := by
  intro es
  induction es with
  | nil => intro rs h; cases h; rfl
  | cons e es ih =>
    intro rs h
    rw [buildLoop] at h
    cases hc : e.content with
    | none => rw [hc] at h; cases h
    | some bs =>
      rw [hc] at h
      cases hrec : buildLoop es with
      | error err => rw [hrec] at h; cases h
      | ok rs' =>
        rw [hrec] at h
        cases h
        simpa using ih hrec

/-- A successful loop had read every file. -/
theorem buildLoop_ok_readable : ∀ {es : List Entry} {rs : List AssetRecord},
    buildLoop es = .ok rs → ∀ e ∈ es, e.content.isSome := by
  intro es
  induction es with
  | nil => intro rs _ e he; cases he
  | cons e es ih =>
    intro rs h e' he'
    rw [buildLoop] at h
    cases hc : e.content with
    | none => rw [hc] at h; cases h
    | some bs =>
      rw [hc] at h
      cases hrec : buildLoop es with
      | error err => rw [hrec] at h; cases h
      | ok rs' =>
        rw [List.mem_cons] at he'
        rcases he' with h' | h'
        · subst h'; rw [hc]; rfl
        · exact ih hrec e' h'

/-- If every discovered file is readable, the loop succeeds. -/
theorem buildLoop_ok_of_readable : ∀ {es : List Entry},
    (∀ e ∈ es, e.content.isSome) → ∃ rs, buildLoop es = .ok rs := by
  intro es
  induction es with
  | nil => intro _; exact ⟨[], rfl⟩
  | cons e es ih =>
    intro h
    obtain ⟨bs, hbs⟩ := Option.isSome_iff_exists.mp (h e (List.mem_cons_self e es))
    obtain ⟨rs, hrs⟩ := ih (fun e' he' => h e' (List.mem_cons_of_mem e he'))
    exact ⟨⟨e.name, sha256_hex bs⟩ :: rs, by rw [buildLoop, hbs, hrs]⟩

/-- An unreadable file in the sequence aborts the loop with
`UnreadableFile` (naming the first unreadable file encountered). -/
theorem buildLoop_error_of_unreadable : ∀ {es : List Entry} {e : Entry},
    e ∈ es → e.content = none →
    ∃ nm, buildLoop es = .error (.UnreadableFile nm) := by
  intro es
  induction es with
  | nil => intro e he _; cases he
  | cons x es ih =>
    intro e he hc
    cases hx : x.content with
    | none => exact ⟨x.name, by rw [buildLoop, hx]⟩
    | some bs =>
      rw [List.mem_cons] at he
      rcases he with h | h
      · subst h; rw [hc] at hx; cases hx
      · obtain ⟨nm, hnm⟩ := ih h hc
        exact ⟨nm, by rw [buildLoop, hx, hnm]⟩

/-- The record produced for a readable file in the sequence. -/
theorem buildLoop_ok_mem : ∀ {es : List Entry} {rs : List AssetRecord}
    {e : Entry} {bs : List Nat}, buildLoop es = .ok rs → e ∈ es →
    e.content = some bs → (⟨e.name, sha256_hex bs⟩ : AssetRecord) ∈ rs := by
  intro es
  induction es with
  | nil => intro rs e bs _ he; cases he
  | cons x es ih =>
    intro rs e bs h he hc
    rw [buildLoop] at h
    cases hx : x.content with
    | none => rw [hx] at h; cases h
    | some bs' =>
      rw [hx] at h
      cases hrec : buildLoop es with
      | error err => rw [hrec] at h; cases h
      | ok rs' =>
        rw [hrec] at h
        cases h
        rw [List.mem_cons] at he
        rcases he with h' | h'
        · subst h'
          rw [hc] at hx
          cases hx
          exact List.mem_cons_self _ _
        · exact List.mem_cons_of_mem _ (ih hrec h' hc)

/-! Section: Writer lemmas -/

/-- Each nibble's `hexDigit` is an ASCII codepoint. -/
theorem hexDigit_ascii {n : Nat} (hn : n < 16) : hexDigit n < 128 := by
  rw [hexDigit]; split <;> omega

/-- Escape digits of a `\uXXXX` sequence are ASCII. -/
theorem hex4_ascii (n : Nat) : ∀ x ∈ hex4 n, x < 128 := by
  intro x hx
  simp only [hex4, List.mem_cons, List.not_mem_nil, or_false] at hx
  rcases hx with h | h | h | h <;> subst h <;>
    exact hexDigit_ascii (Nat.mod_lt _ (by omega))

/-- Every character emitted by `ensure_ascii` escaping is ASCII. -/
theorem escapeChar_ascii (c : Nat) : ∀ x ∈ escapeChar c, x < 128 := by
  intro x hx
  rw [escapeChar] at hx
  split_ifs at hx with h1 h2 h3 h4 h5 h6 h7 h8 h9
  · simp only [List.mem_cons, List.not_mem_nil, or_false] at hx
    rcases hx with h | h <;> omega
  · simp only [List.mem_cons, List.not_mem_nil, or_false] at hx
    rcases hx with h | h <;> omega
  · simp only [List.mem_cons, List.not_mem_nil, or_false] at hx
    rcases hx with h | h <;> omega
  · simp only [List.mem_cons, List.not_mem_nil, or_false] at hx
    rcases hx with h | h <;> omega
  · simp only [List.mem_cons, List.not_mem_nil, or_false] at hx
    rcases hx with h | h <;> omega
  · simp only [List.mem_cons, List.not_mem_nil, or_false] at hx
    rcases hx with h | h <;> omega
  · simp only [List.mem_cons, List.not_mem_nil, or_false] at hx
    rcases hx with h | h <;> omega
  · simp only [List.mem_cons, List.not_mem_nil, or_false] at hx
    omega
  · simp only [List.mem_cons] at hx
    rcases hx with h | h | h
    · omega
    · omega
    · exact hex4_ascii c x h
  · simp only [List.cons_append, List.mem_cons, List.mem_append] at hx
    rcases hx with h | h | (h | (h | h | h))
    · omega
    · omega
    · exact hex4_ascii _ x h
    · omega
    · omega
    · exact hex4_ascii _ x h

/-- Every character of a JSON string literal is ASCII. -/
theorem quoteStr_ascii (s : Str) : ∀ x ∈ quoteStr s, x < 128 := by
  intro x hx
  simp only [quoteStr, List.mem_append, List.mem_cons, List.mem_flatMap,
    List.not_mem_nil, or_false] at hx
  rcases hx with (h | ⟨c, -, hc⟩) | h
  · omega
  · exact escapeChar_ascii c x hc
  · omega

/-- A character of a joined list comes from the separator or an item. -/
theorem mem_joinSep {sep : Str} {x : Nat} : ∀ {L : List Str},
    x ∈ joinSep sep L → x ∈ sep ∨ ∃ l ∈ L, x ∈ l
  | [], h => absurd h (List.not_mem_nil x)
  | [s], h => Or.inr ⟨s, List.mem_cons_self s [], by simpa [joinSep] using h⟩
  | s :: t :: rest, h => by
    rw [joinSep] at h
    rcases List.mem_append.mp h with h1 | h2
    · rcases List.mem_append.mp h1 with h3 | h4
      · exact Or.inr ⟨s, List.mem_cons_self s _, h3⟩
      · exact Or.inl h4
    · rcases mem_joinSep h2 with h3 | ⟨l, hl, hxl⟩
      · exact Or.inl h3
      · exact Or.inr ⟨l, List.mem_cons_of_mem s hl, hxl⟩

/-- Every character of a rendered record is ASCII. -/
theorem renderRecord_ascii (r : AssetRecord) : ∀ x ∈ renderRecord r, x < 128 := by
  have hlit1 : ∀ y ∈ lit ("    \x7b\n      \"fileName\": "), y < 128 := by decide
  have hlit2 : ∀ y ∈ lit (",\n      \"sha256\": "), y < 128 := by decide
  have hlit3 : ∀ y ∈ lit ("\n    \x7d"), y < 128 := by decide
  intro x hx
  simp only [renderRecord, List.mem_append] at hx
  rcases hx with ((((h | h) | h) | h) | h)
  · exact hlit1 x h
  · exact quoteStr_ascii _ x h
  · exact hlit2 x h
  · exact quoteStr_ascii _ x h
  · exact hlit3 x h

/-- Every character of the serialized manifest is ASCII: `ensure_ascii`
escaping keeps the document ASCII-safe whatever the file names contain. -/
theorem renderManifest_ascii (packs : List AssetRecord) :
    ∀ x ∈ renderManifest packs, x < 128 := by
  have hlit0 : ∀ y ∈ lit ("\x7b\n  \"packs\": []\n\x7d\n"), y < 128 := by decide
  have hlit1 : ∀ y ∈ lit ("\x7b\n  \"packs\": [\n"), y < 128 := by decide
  have hlit2 : ∀ y ∈ lit (",\n"), y < 128 := by decide
  have hlit3 : ∀ y ∈ lit ("\n  ]\n\x7d\n"), y < 128 := by decide
  intro x hx
  rw [renderManifest] at hx
  split_ifs at hx
  · exact hlit0 x hx
  · simp only [List.mem_append] at hx
    rcases hx with (h | h) | h
    · exact hlit1 x h
    · rcases mem_joinSep h with h' | ⟨l, hl, hxl⟩
      · exact hlit2 x h'
      · obtain ⟨r, -, rfl⟩ := List.mem_map.mp hl
        exact renderRecord_ascii r x hxl
    · exact hlit3 x h

/-- The serialized manifest ends with the closing brace and exactly one
newline. -/
theorem renderManifest_trailing (packs : List AssetRecord) :
    ∃ body, renderManifest packs = body ++ [125, 10] := by
  rw [renderManifest]
  split_ifs
  · exact ⟨lit ("\x7b\n  \"packs\": []\n"), by decide⟩
  · refine ⟨lit ("\x7b\n  \"packs\": [\n") ++
      joinSep (lit (",\n")) (packs.map renderRecord) ++ lit ("\n  ]\n"), ?_⟩
    have h : lit ("\n  ]\n\x7d\n") = lit ("\n  ]\n") ++ [125, 10] := by decide
    rw [h]
    simp [List.append_assoc]

/-- In a rendered record the `"fileName"` key text precedes the `"sha256"`
key text. -/
theorem renderRecord_key_order (r : AssetRecord) :
    ∃ u v w, renderRecord r =
      u ++ lit ("\"fileName\"") ++ v ++ lit ("\"sha256\"") ++ w := by
  refine ⟨lit ("    \x7b\n      "),
    lit (": ") ++ quoteStr r.fileName ++ lit (",\n      "),
    lit (": ") ++ quoteStr r.sha256 ++ lit ("\n    \x7d"), ?_⟩
  have h1 : lit ("    \x7b\n      \"fileName\": ") =
      lit ("    \x7b\n      ") ++ lit ("\"fileName\"") ++ lit (": ") := by decide
  have h2 : lit (",\n      \"sha256\": ") =
      lit (",\n      ") ++ lit ("\"sha256\"") ++ lit (": ") := by decide
  rw [renderRecord, h1, h2]
  simp [List.append_assoc]

/-! Section: Claim theorems -/

/-- C7: discovery includes exactly the directory entries that are regular
files, whose name matches the `.json` extension case-insensitively, and
whose name is not an exact member of the exclusion set; an excluded name is
omitted whatever its extension. -/
theorem discovery_characterization (entries : List Entry) (excludes : List Str)
    (e : Entry) :
    e ∈ iter_json_files entries excludes ↔
      e ∈ entries ∧ e.isFile = true ∧ pyLower (pySuffix e.name) = dotJson ∧
        e.name ∉ excludes :=
  mem_iter_char entries excludes e

/-- C5: in a successful build the manifest records are the discovered files
in discovery order with no reordering, their names are sorted in the
locale-independent codepoint order, and discovery does not depend on the
filesystem's iteration order (for the unique names of a real directory). -/
theorem manifest_sorted (entries : List Entry) (excludes : List Str)
    (rs : List AssetRecord)
    (hok : build_manifest entries excludes = .ok rs) :
    rs.map AssetRecord.fileName = (iter_json_files entries excludes).map Entry.name ∧
    (rs.map AssetRecord.fileName).Pairwise (fun x y => strLe x y = true) ∧
    (∀ entries' : List Entry, entries'.Perm entries →
      (entries.map Entry.name).Nodup →
      iter_json_files entries' excludes = iter_json_files entries excludes) := by
  rw [build_manifest] at hok
  have h1 := buildLoop_ok_names hok
  refine ⟨h1, ?_, ?_⟩
  · rw [h1]
    exact iter_json_files_sorted entries excludes
  · intro entries' hp hnd
    exact iter_json_files_perm_eq hp (hnd.perm (hp.map Entry.name).symm) excludes

/-- C8: no two records of a successfully built manifest share a file name
(directory listings have unique names). -/
theorem manifest_names_nodup (entries : List Entry) (excludes : List Str)
    (rs : List AssetRecord) (hnd : (entries.map Entry.name).Nodup)
    (hok : build_manifest entries excludes = .ok rs) :
    (rs.map AssetRecord.fileName).Nodup := by
  rw [build_manifest] at hok
  rw [buildLoop_ok_names hok]
  exact iter_json_files_names_nodup hnd excludes

/-- C9: the literal name `packs.json` is always a member of the exclusion
set, so no record of any successful build carries it — whatever the
configured output path's name (`cfg.outputName` is arbitrary here and is
never consulted by the exclusion logic). -/
theorem packs_json_never_recorded (cfg : Config) (rs : List AssetRecord)
    (hok : build_manifest cfg.dirEntries (defaultExcludes cfg.userExcludes) = .ok rs) :
    ∀ r ∈ rs, r.fileName ≠ packsJsonStr := by
  intro r hr heq
  rw [build_manifest] at hok
  have hnames := buildLoop_ok_names hok
  have hmem : r.fileName ∈
      (iter_json_files cfg.dirEntries (defaultExcludes cfg.userExcludes)).map
        Entry.name := by
    rw [← hnames]
    exact List.mem_map_of_mem AssetRecord.fileName hr
  obtain ⟨e, he, hename⟩ := List.mem_map.mp hmem
  have hchar := (mem_iter_char _ _ e).mp he
  apply hchar.2.2.2
  rw [hename, heq]
  exact List.mem_cons_self packsJsonStr _

/-- C2: with an existing assets directory, an unreadable discovered file
aborts the whole run with `UnreadableFile` before any write (`main`
returning `.error` is precisely the no-write outcome), and a successful
write implies every discovered file was hashed first. -/
theorem unreadable_aborts_build (cfg : Config) (hdir : cfg.dirExists = true) :
    ((∃ e ∈ iter_json_files cfg.dirEntries (defaultExcludes cfg.userExcludes),
        e.content = none) →
      ∃ nm, main cfg = .error (.UnreadableFile nm)) ∧
    (∀ doc, main cfg = .ok doc →
      ∀ e ∈ iter_json_files cfg.dirEntries (defaultExcludes cfg.userExcludes),
        e.content.isSome) := by
  constructor
  · rintro ⟨e, he, hc⟩
    obtain ⟨nm, hnm⟩ := buildLoop_error_of_unreadable he hc
    refine ⟨nm, ?_⟩
    simp only [main, hdir, Bool.true_eq_false, if_false, build_manifest, hnm]
  · intro doc h e he
    simp only [main, hdir, Bool.true_eq_false, if_false] at h
    cases hb : build_manifest cfg.dirEntries (defaultExcludes cfg.userExcludes) with
    | error err => rw [hb] at h; cases h
    | ok packs =>
      rw [build_manifest] at hb
      exact buildLoop_ok_readable hb e he

/-- C6: zero eligible files make the run fail with `EmptyAssetSet` and a
nonzero exit status; `main` never reaches its write (it returns `.error`,
not `.ok`), so no output file is produced. -/
theorem empty_discovery_fails (cfg : Config) (hdir : cfg.dirExists = true)
    (hempty : iter_json_files cfg.dirEntries (defaultExcludes cfg.userExcludes) = []) :
    main cfg = .error .EmptyAssetSet ∧ exitCode (main cfg) ≠ 0 := by
  have hb : build_manifest cfg.dirEntries (defaultExcludes cfg.userExcludes) =
      .ok [] := by
    rw [build_manifest, hempty]; rfl
  have hm : main cfg = .error .EmptyAssetSet := by
    simp only [main, hdir, Bool.true_eq_false, if_false, hb, List.isEmpty_nil,
      if_true]
  exact ⟨hm, by rw [hm]; simp [exitCode]⟩

/-- C4: the record built for a discovered file carries exactly
`sha256_hex` of the file's bytes; that digest is the one-shot SHA-256 of
the complete content in lowercase hexadecimal (64 characters), the read
loop streams in chunks of at most 8192 bytes that reassemble to the full
content, and any file anywhere with identical bytes gets the identical
digest (no dependence on name or metadata). -/
theorem record_hash_correct (entries : List Entry) (excludes : List Str)
    (rs : List AssetRecord) (e : Entry) (bs : List Nat)
    (hok : build_manifest entries excludes = .ok rs)
    (he : e ∈ iter_json_files entries excludes) (hc : e.content = some bs) :
    (⟨e.name, sha256_hex bs⟩ : AssetRecord) ∈ rs ∧
    sha256_hex bs = bytesToHex (sha256 bs) ∧
    (sha256_hex bs).length = 64 ∧
    (∀ c ∈ sha256_hex bs, 48 ≤ c ∧ c ≤ 57 ∨ 97 ≤ c ∧ c ≤ 102) ∧
    (∀ chunk ∈ readChunks bs, chunk.length ≤ 8192) ∧
    (readChunks bs).flatten = bs ∧
    (∀ e' : Entry, ∀ entries' excludes' rs', e'.content = some bs →
      build_manifest entries' excludes' = .ok rs' →
      e' ∈ iter_json_files entries' excludes' →
      (⟨e'.name, sha256_hex bs⟩ : AssetRecord) ∈ rs') := by
  rw [build_manifest] at hok
  refine ⟨buildLoop_ok_mem hok he hc, sha256_hex_eq_oneShot bs,
    sha256_hex_length bs, sha256_hex_chars bs, ?_,
    chunksOf_flatten (by omega) bs, ?_⟩
  · intro chunk hchunk
    exact chunksOfAux_length_le bs.length bs chunk hchunk
  · intro e' entries' excludes' rs' hc' hok' he'
    rw [build_manifest] at hok'
    exact buildLoop_ok_mem hok' he' hc'

/-- C10: a regular file named `PACKS.JSON` passes the case-insensitive
extension filter, survives the case-sensitive default exclusion of
`packs.json`, and so appears as a record in the built manifest. -/
theorem case_variant_included (entries : List Entry) (e : Entry)
    (he : e ∈ entries) (hf : e.isFile = true) (hn : e.name = upperPacksJson)
    (hread : ∀ x ∈ iter_json_files entries (defaultExcludes []),
      x.content.isSome) :
    e ∈ iter_json_files entries (defaultExcludes []) ∧
    ∃ rs, build_manifest entries (defaultExcludes []) = .ok rs ∧
      ∃ r ∈ rs, r.fileName = upperPacksJson := by
  have hmem : e ∈ iter_json_files entries (defaultExcludes []) := by
    rw [mem_iter_json_files]
    refine ⟨he, ?_⟩
    rw [jsonFilter, hf, hn]
    decide
  obtain ⟨rs, hrs⟩ := buildLoop_ok_of_readable hread
  obtain ⟨bs, hbs⟩ := Option.isSome_iff_exists.mp (hread e hmem)
  refine ⟨hmem, rs, by rw [build_manifest]; exact hrs, ?_⟩
  refine ⟨⟨e.name, sha256_hex bs⟩, buildLoop_ok_mem hrs hmem hbs, ?_⟩
  exact hn

/-- Inversion of a successful run: the directory existed, the build
succeeded on a nonempty record list, and the document is its rendering. -/
theorem main_ok_inv {cfg : Config} {doc : Str} (h : main cfg = .ok doc) :
    cfg.dirExists = true ∧
    ∃ packs, build_manifest cfg.dirEntries (defaultExcludes cfg.userExcludes) =
        .ok packs ∧ packs.isEmpty = false ∧ doc = renderManifest packs := by
  simp only [main] at h
  split at h
  · cases h
  · rename_i hdex
    constructor
    · revert hdex; cases cfg.dirExists <;> simp
    · split at h
      · cases h
      · rename_i packs heq
        split at h
        · cases h
        · rename_i hne
          refine ⟨packs, heq, ?_, ?_⟩
          · revert hne; cases packs.isEmpty <;> simp
          · cases h; rfl

/-- C3: over a fixed directory snapshot (same entries, unique names) two
runs produce identical results however the filesystem ordered its listing
and wherever the output path points; a produced document is ASCII
throughout, ends in the closing brace plus exactly one newline, and is the
canonical rendering of the built records with the `"fileName"` key text
before the `"sha256"` key text in every record. -/
theorem build_deterministic (l1 l2 : List Entry) (dex : Bool) (out1 out2 : Str)
    (uex : List Str) (hp : l1.Perm l2) (hnd : (l1.map Entry.name).Nodup) :
    main ⟨l1, dex, out1, uex⟩ = main ⟨l2, dex, out2, uex⟩ ∧
    (∀ doc, main ⟨l1, dex, out1, uex⟩ = .ok doc →
      (∀ c ∈ doc, c < 128) ∧
      (∃ body, doc = body ++ [125, 10]) ∧
      (∃ packs, build_manifest l1 (defaultExcludes uex) = .ok packs ∧
        doc = renderManifest packs ∧
        ∀ r ∈ packs, ∃ u v w, renderRecord r =
          u ++ lit ("\"fileName\"") ++ v ++ lit ("\"sha256\"") ++ w)) := by
  have hiter : iter_json_files l1 (defaultExcludes uex) =
      iter_json_files l2 (defaultExcludes uex) :=
    iter_json_files_perm_eq hp hnd (defaultExcludes uex)
  constructor
  · simp only [main, build_manifest, hiter]
  · intro doc h
    obtain ⟨-, packs, hb, -, hdoc⟩ := main_ok_inv h
    subst hdoc
    exact ⟨renderManifest_ascii packs, renderManifest_trailing packs,
      packs, hb, rfl, fun r _ => renderRecord_key_order r⟩

/-- A concrete successful build over an out-of-order listing. -/
theorem buildAB_ok : build_manifest [entryBJson, entryAJson] [] =
    .ok [⟨lit ("a.json"), emptySha⟩, ⟨lit ("b.json"), xJsonSha⟩] := by
  decide

/-- C1 fails on the code: only the literal `packs.json` is ever excluded
(line 64), not the output path's file name, so a run configured with
output name `out.json` hashes and records `out.json` itself, contradicting
the claimed always-applied self-exclusion. -/
theorem custom_output_name_included :
    cfgCustomOut.outputName = lit ("out.json") ∧
    cfgCustomOut.userExcludes = [] ∧
    build_manifest cfgCustomOut.dirEntries (defaultExcludes cfgCustomOut.userExcludes) =
      .ok [⟨lit ("a.json"), emptySha⟩, ⟨lit ("out.json"), emptySha⟩] ∧
    (∃ r ∈ [(⟨lit ("a.json"), emptySha⟩ : AssetRecord), ⟨lit ("out.json"), emptySha⟩],
      r.fileName = cfgCustomOut.outputName) ∧
    (∃ doc, main cfgCustomOut = .ok doc) := by
  refine ⟨rfl, rfl, by decide, ⟨⟨lit ("out.json"), emptySha⟩, by decide, rfl⟩, ?_⟩
  exact ⟨renderManifest [⟨lit ("a.json"), emptySha⟩, ⟨lit ("out.json"), emptySha⟩],
    by decide⟩

/-! Section: Witnesses: each claim theorem applied at a concrete run -/

/-- C2 at a concrete run with an unreadable discovered file. -/
theorem unreadable_aborts_build_witness :
    cfgUnreadable.dirExists = true ∧
    (∃ e ∈ iter_json_files cfgUnreadable.dirEntries
        (defaultExcludes cfgUnreadable.userExcludes), e.content = none) ∧
    (((∃ e ∈ iter_json_files cfgUnreadable.dirEntries
          (defaultExcludes cfgUnreadable.userExcludes), e.content = none) →
        ∃ nm, main cfgUnreadable = .error (.UnreadableFile nm)) ∧
      (∀ doc, main cfgUnreadable = .ok doc →
        ∀ e ∈ iter_json_files cfgUnreadable.dirEntries
            (defaultExcludes cfgUnreadable.userExcludes), e.content.isSome)) :=
  ⟨rfl, by decide, unreadable_aborts_build cfgUnreadable rfl⟩

/-- C3 at two runs over the same two files listed in opposite orders. -/
theorem build_deterministic_witness :
    ([entryAJson, entryBJson] : List Entry).Perm [entryBJson, entryAJson] ∧
    ([entryAJson, entryBJson].map Entry.name).Nodup ∧
    (main ⟨[entryAJson, entryBJson], true, lit ("one.json"), []⟩ =
        main ⟨[entryBJson, entryAJson], true, lit ("two.json"), []⟩ ∧
      (∀ doc, main ⟨[entryAJson, entryBJson], true, lit ("one.json"), []⟩ = .ok doc →
        (∀ c ∈ doc, c < 128) ∧
        (∃ body, doc = body ++ [125, 10]) ∧
        (∃ packs, build_manifest [entryAJson, entryBJson] (defaultExcludes []) =
            .ok packs ∧
          doc = renderManifest packs ∧
          ∀ r ∈ packs, ∃ u v w, renderRecord r =
            u ++ lit ("\"fileName\"") ++ v ++ lit ("\"sha256\"") ++ w))) :=
  ⟨List.Perm.swap entryBJson entryAJson [], by decide,
    build_deterministic [entryAJson, entryBJson] [entryBJson, entryAJson] true
      (lit ("one.json")) (lit ("two.json")) []
      (List.Perm.swap entryBJson entryAJson []) (by decide)⟩

/-- C4 at the concrete build `buildAB_ok`, for the empty file `a.json`. -/
theorem record_hash_correct_witness :
    build_manifest [entryBJson, entryAJson] [] =
      .ok [⟨lit ("a.json"), emptySha⟩, ⟨lit ("b.json"), xJsonSha⟩] ∧
    entryAJson ∈ iter_json_files [entryBJson, entryAJson] [] ∧
    entryAJson.content = some [] ∧
    ((⟨entryAJson.name, sha256_hex []⟩ : AssetRecord) ∈
        [(⟨lit ("a.json"), emptySha⟩ : AssetRecord), ⟨lit ("b.json"), xJsonSha⟩] ∧
      sha256_hex [] = bytesToHex (sha256 []) ∧
      (sha256_hex []).length = 64 ∧
      (∀ c ∈ sha256_hex [], 48 ≤ c ∧ c ≤ 57 ∨ 97 ≤ c ∧ c ≤ 102) ∧
      (∀ chunk ∈ readChunks [], chunk.length ≤ 8192) ∧
      (readChunks ([] : List Nat)).flatten = [] ∧
      (∀ e' : Entry, ∀ entries' excludes' rs', e'.content = some [] →
        build_manifest entries' excludes' = .ok rs' →
        e' ∈ iter_json_files entries' excludes' →
        (⟨e'.name, sha256_hex []⟩ : AssetRecord) ∈ rs')) :=
  ⟨buildAB_ok, by decide, rfl,
    record_hash_correct [entryBJson, entryAJson] []
      [⟨lit ("a.json"), emptySha⟩, ⟨lit ("b.json"), xJsonSha⟩] entryAJson []
      buildAB_ok (by decide) rfl⟩

/-- C5 at the concrete build `buildAB_ok`. -/
theorem manifest_sorted_witness :
    build_manifest [entryBJson, entryAJson] [] =
      .ok [⟨lit ("a.json"), emptySha⟩, ⟨lit ("b.json"), xJsonSha⟩] ∧
    ([(⟨lit ("a.json"), emptySha⟩ : AssetRecord), ⟨lit ("b.json"), xJsonSha⟩].map
        AssetRecord.fileName =
      (iter_json_files [entryBJson, entryAJson] []).map Entry.name ∧
    ([(⟨lit ("a.json"), emptySha⟩ : AssetRecord), ⟨lit ("b.json"), xJsonSha⟩].map
        AssetRecord.fileName).Pairwise (fun x y => strLe x y = true) ∧
    (∀ entries' : List Entry, entries'.Perm [entryBJson, entryAJson] →
      ([entryBJson, entryAJson].map Entry.name).Nodup →
      iter_json_files entries' [] = iter_json_files [entryBJson, entryAJson] [])) :=
  ⟨buildAB_ok,
    manifest_sorted [entryBJson, entryAJson] []
      [⟨lit ("a.json"), emptySha⟩, ⟨lit ("b.json"), xJsonSha⟩] buildAB_ok⟩

/-- C6 at a concrete run with no eligible file. -/
theorem empty_discovery_fails_witness :
    cfgNotes.dirExists = true ∧
    iter_json_files cfgNotes.dirEntries (defaultExcludes cfgNotes.userExcludes) = [] ∧
    (main cfgNotes = .error .EmptyAssetSet ∧ exitCode (main cfgNotes) ≠ 0) :=
  ⟨rfl, by decide, empty_discovery_fails cfgNotes rfl (by decide)⟩

/-- C8 at the concrete build `buildAB_ok`. -/
theorem manifest_names_nodup_witness :
    ([entryBJson, entryAJson].map Entry.name).Nodup ∧
    build_manifest [entryBJson, entryAJson] [] =
      .ok [⟨lit ("a.json"), emptySha⟩, ⟨lit ("b.json"), xJsonSha⟩] ∧
    ([(⟨lit ("a.json"), emptySha⟩ : AssetRecord), ⟨lit ("b.json"), xJsonSha⟩].map
        AssetRecord.fileName).Nodup :=
  ⟨by decide, buildAB_ok,
    manifest_names_nodup [entryBJson, entryAJson] []
      [⟨lit ("a.json"), emptySha⟩, ⟨lit ("b.json"), xJsonSha⟩] (by decide) buildAB_ok⟩

/-- The concrete build of that invocation: `packs.json` is dropped. -/
theorem buildPacksPresent_ok :
    build_manifest cfgPacksPresent.dirEntries
      (defaultExcludes cfgPacksPresent.userExcludes) =
    .ok [⟨lit ("a.json"), emptySha⟩] := by
  decide

/-- C9 at that concrete run. -/
theorem packs_json_never_recorded_witness :
    build_manifest cfgPacksPresent.dirEntries
        (defaultExcludes cfgPacksPresent.userExcludes) =
      .ok [⟨lit ("a.json"), emptySha⟩] ∧
    ∀ r ∈ [(⟨lit ("a.json"), emptySha⟩ : AssetRecord)], r.fileName ≠ packsJsonStr :=
  ⟨buildPacksPresent_ok,
    packs_json_never_recorded cfgPacksPresent _ buildPacksPresent_ok⟩

/-- C10 at a concrete run over a single `PACKS.JSON`. -/
theorem case_variant_included_witness :
    entryUpper ∈ [entryUpper] ∧ entryUpper.isFile = true ∧
    entryUpper.name = upperPacksJson ∧
    (∀ x ∈ iter_json_files [entryUpper] (defaultExcludes []), x.content.isSome) ∧
    (entryUpper ∈ iter_json_files [entryUpper] (defaultExcludes []) ∧
      ∃ rs, build_manifest [entryUpper] (defaultExcludes []) = .ok rs ∧
        ∃ r ∈ rs, r.fileName = upperPacksJson) :=
  ⟨List.mem_cons_self entryUpper [], rfl, rfl, by decide,
    case_variant_included [entryUpper] entryUpper
      (List.mem_cons_self entryUpper []) rfl rfl (by decide)⟩

end PacksManifest
